import Mathlib

/-
  Verification development for the `c3aidatalake` client module.

  The module under study is a thin client over a paginated JSON HTTP API:
  `read_data_json` performs one POST and raises on a non-200 status;
  `fetch` paginates with limit/offset and strips metadata columns;
  `evalmetrics` batches ids (10 per call) and expressions (4 per call),
  merges batch results column-wise, explodes sequence cells and unifies
  date columns; `getprojectionhistory` does a single call plus the same
  reshaping and a ".value" column-name simplification.

  The embedding below models JSON values, pandas-style tables and the
  module's control flow as executable Lean definitions.  The HTTP
  transport is represented by explicit response values (a response list
  for the pagination loop, a response function for the batching loop).
-/

namespace DataLake

/-- JSON values, extended with the timestamp cells produced by the
date conversion step of the pandas pipeline. -/
inductive JVal : Type where
  | null : JVal
  | bool (b : Bool) : JVal
  | str (s : String) : JVal
  | num (n : Int) : JVal
  | datetime (s : String) : JVal
  | arr (xs : List JVal) : JVal
  | obj (fields : List (String × JVal)) : JVal

/-- Failures the Python module can raise: `Exception(message)` from
`read_data_json` (the message is the JSON value of the response body's
`message` field), `KeyError` from a dict lookup, `IndexError` from
`date_cols[0]` on an empty list, and a type failure for malformed shapes. -/
inductive PyErr : Type where
  | apiError (msg : JVal) : PyErr
  | keyError (k : String) : PyErr
  | indexError : PyErr
  | typeError : PyErr

/-- An HTTP response as seen by `read_data_json`: a status code and the
parsed JSON body (a JSON object, i.e. a key/value list). -/
structure HttpResponse : Type where
  statusCode : Nat
  body : List (String × JVal)

/-- Contiguous-sublist test on character lists. -/
def subListOf (pat : List Char) : List Char → Bool
  | [] => pat.isEmpty
  | c :: cs => pat.isPrefixOf (c :: cs) || subListOf pat cs

/-- Python's substring test `pat in s`. -/
def hasSub (s pat : String) : Bool := subListOf pat.toList s.toList

/-- Python truthiness of a JSON value (used on the `hasMore` flag). -/
def pyTruthy : JVal → Bool
  | .null => false
  | .bool b => b
  | .str s => !s.isEmpty
  | .num n => n != 0
  | .datetime _ => true
  | .arr xs => !xs.isEmpty
  | .obj fs => !fs.isEmpty

/-- Python dict subscription `body[k]`: the value at the first matching key,
or a `KeyError` when the key is absent. -/
def lookupKey (body : List (String × JVal)) (k : String) : Except PyErr JVal :=
  match body.find? (fun p => p.1 == k) with
  | some p => .ok p.2
  | none => .error (.keyError k)

/-- View a JSON value as a list (the shape `json_normalize` expects for
the `objs` field); anything else is a shape failure. -/
def asArr : JVal → Except PyErr (List JVal)
  | .arr xs => .ok xs
  | _ => .error .typeError

/-- Model of `read_data_json` (src/c3aidatalake.py lines 4-26), applied to
the response of the single POST it performs: on a non-200 status it raises
`Exception(response.json()["message"])` - where the subscription itself
raises `KeyError` if the body has no `message` field - and on a 200 status
it returns the parsed body unchanged. -/
def read_data_json (resp : HttpResponse) : Except PyErr (List (String × JVal)) :=
  if resp.statusCode ≠ 200 then
    match lookupKey resp.body "message" with
    | .ok v => .error (.apiError v)
    | .error e => .error e
  else
    .ok resp.body

/-- A pandas-style dataframe: a row count and ordered, named columns,
each holding the column's cells from top to bottom.  (The explicit row
count models the dataframe index length, which is well defined even for
a frame with no columns.) -/
structure Table : Type where
  nrows : Nat
  cols : List (String × List JVal)

/-- The column names of a table, in order. -/
def colNames (t : Table) : List String := t.cols.map Prod.fst

/-- `pd.DataFrame()`: the empty frame. -/
def emptyTable : Table := ⟨0, []⟩

/-- The cells of the (first) column named `c`, if present. -/
def getCol (t : Table) (c : String) : Option (List JVal) :=
  (t.cols.find? (fun p => p.1 == c)).map Prod.snd

/-- Row `i` of a table, as the list of (column name, cell) pairs. -/
def getRow (t : Table) (i : Nat) : List (String × JVal) :=
  t.cols.map (fun c => (c.1, c.2.getD i JVal.null))

/-- Pad a column with nulls (NaN) up to `n` cells. -/
def padCol (n : Nat) (col : List JVal) : List JVal :=
  col ++ List.replicate (n - col.length) JVal.null

/-- Keep the first occurrence of every name, dropping later duplicates. -/
def dedupFirstGo (seen : List String) : List String → List String
  | [] => []
  | x :: xs => if seen.contains x then dedupFirstGo seen xs else x :: dedupFirstGo (x :: seen) xs

/-- First-occurrence deduplication of a name list. -/
def dedupFirst (l : List String) : List String := dedupFirstGo [] l

mutual
/-- Flattening of one JSON field under a dotted prefix, as
`pd.json_normalize` does: nested objects contribute dotted names, every
other value (including lists) stays as a single cell. -/
def flattenField (name : String) : JVal → List (String × JVal)
  | .obj fs => flattenFields name fs
  | v => [(name, v)]

/-- Flattening of the fields of a nested JSON object under a prefix. -/
def flattenFields (name : String) : List (String × JVal) → List (String × JVal)
  | [] => []
  | (k, v) :: rest => flattenField (name ++ "." ++ k) v ++ flattenFields name rest
end

/-- Flattening of the top-level fields of one JSON record (no prefix). -/
def topFields : List (String × JVal) → List (String × JVal)
  | [] => []
  | (k, v) :: rest => flattenField k v ++ topFields rest

/-- One JSON record flattened to a flat (dotted-name, cell) list. -/
def flattenRecord : JVal → List (String × JVal)
  | .obj fs => topFields fs
  | _ => []

/-- Model of `pd.json_normalize` on a list of records: one row per record,
columns named by the flattened dotted keys in order of first appearance,
missing keys filled with null (NaN). -/
def jsonNormalizeList (objs : List JVal) : Table :=
  let records := objs.map flattenRecord
  let names := dedupFirst ((records.map (fun r => r.map Prod.fst)).flatten)
  ⟨objs.length,
   names.map (fun c =>
     (c, records.map (fun r => ((r.find? (fun p => p.1 == c)).map Prod.snd).getD JVal.null)))⟩

/-- Model of `pd.json_normalize` on a single JSON object (used on
`response_json['result']` and on the whole projection-history body):
the object is one record, so the frame has one row. -/
def jsonNormalizeOne (v : JVal) : Table := jsonNormalizeList [v]

/-- Model of `df.append(new_df)` (row-wise concatenation): row counts add,
columns are unioned in order of first appearance, and a column missing on
one side is padded with nulls for that side's rows. -/
def rowAppend (t1 t2 : Table) : Table :=
  let names := dedupFirst (colNames t1 ++ colNames t2)
  ⟨t1.nrows + t2.nrows,
   names.map (fun c =>
     (c, ((getCol t1 c).getD (List.replicate t1.nrows JVal.null)) ++
         ((getCol t2 c).getD (List.replicate t2.nrows JVal.null))))⟩

/-- Model of `pd.concat([t1, t2], axis = 1)` on position-aligned frames:
columns of both frames side by side, each padded with nulls up to the
larger row count. -/
def concatCols (t1 t2 : Table) : Table :=
  let n := max t1.nrows t2.nrows
  ⟨n, t1.cols.map (fun c => (c.1, padCol n c.2)) ++ t2.cols.map (fun c => (c.1, padCol n c.2))⟩

/-- Model of `pd.Series.explode` on one cell: a non-empty list spreads into
its elements, an empty list becomes a single null (NaN) row, and any
non-list cell stays as a single row. -/
def explodeCell : JVal → List JVal
  | .arr xs => if xs.isEmpty then [JVal.null] else xs
  | v => [v]

/-- Model of `pd.Series.explode` on a whole column. -/
def explodeCol (col : List JVal) : List JVal := (col.map explodeCell).flatten

/-- Model of `df.apply(pd.Series.explode)`: every column is exploded;
the resulting row count is the largest exploded column length (for a
frame with no columns the frame is unchanged). -/
def explodeTable (t : Table) : Table :=
  let cs := t.cols.map (fun c => (c.1, explodeCol c.2))
  ⟨if cs.isEmpty then t.nrows else (cs.map (fun c => c.2.length)).foldr Nat.max 0, cs⟩

/-- The column labels `fetch` drops when `remove_meta` holds:
`[c for c in df.columns if ('meta' in c) | ('version' in c)]`. -/
def dropListFetch (t : Table) : List String :=
  (colNames t).filter (fun c => hasSub c "meta" || hasSub c "version")

/-- Model of `df.drop(columns = dropListFetch df)` (src lines 57-58). -/
def removeMetaFetch (t : Table) : Table :=
  ⟨t.nrows, t.cols.filter (fun c => !((dropListFetch t).contains c.1))⟩

/-- Model of `df.filter(regex = 'dates|data|missing')` in `evalmetrics`. -/
def filterRegexEM (t : Table) : Table :=
  ⟨t.nrows, t.cols.filter (fun c => hasSub c.1 "dates" || hasSub c.1 "data" || hasSub c.1 "missing")⟩

/-- Model of `df.filter(regex = 'dates|data|missing|expr')` in
`getprojectionhistory`. -/
def filterRegexPH (t : Table) : Table :=
  ⟨t.nrows, t.cols.filter (fun c =>
    hasSub c.1 "dates" || hasSub c.1 "data" || hasSub c.1 "missing" || hasSub c.1 "expr")⟩

/-- Model of `df.filter(items = ks)`: the named columns, in the order of
`ks`, silently skipping absent labels. -/
def filterItems (t : Table) (ks : List String) : Table :=
  ⟨t.nrows, ks.filterMap (fun k => t.cols.find? (fun c => c.1 == k))⟩

/-- Model of `df.rename(columns = {a : b})`: every column labelled `a`
is relabelled `b`. -/
def renameCol (t : Table) (a b : String) : Table :=
  ⟨t.nrows, t.cols.map (fun c => if c.1 == a then (b, c.2) else c)⟩

/-- Cell-wise update of the column labelled `k`
(models `df[k] = f(df[k])`). -/
def mapColCells (t : Table) (k : String) (f : JVal → JVal) : Table :=
  ⟨t.nrows, t.cols.map (fun c => if c.1 == k then (c.1, c.2.map f) else c)⟩

/-- Model of `pd.to_datetime` on one cell: strings and numbers become
timestamps, null (NaT) stays null, other cells are left untouched. -/
def toDatetimeCell : JVal → JVal
  | .str s => .datetime s
  | .num n => .datetime (toString n)
  | .null => .null
  | v => v

/-- The shared date-unification pass (src lines 97-101 and 120-124):
collect the columns whose name contains "dates", keep only the first of
them (before all non-dates columns), rename it to "dates" and convert its
cells to timestamps.  When no column name contains "dates", the
subscription `date_cols[0]` raises `IndexError`. -/
def dateUnify (t : Table) : Except PyErr Table :=
  let dateCols := (colNames t).filter (fun c => hasSub c "dates")
  let keepCols := dateCols.take 1 ++ (colNames t).filter (fun c => !hasSub c "dates")
  match dateCols with
  | [] => .error .indexError
  | d0 :: _ =>
    .ok (mapColCells (renameCol (filterItems t keepCols) d0 "dates") "dates" toDatetimeCell)

/-- The batched request arguments of `evalmetrics(get_all = True)`
(src lines 77-82): for `ids_start in range(0, len(ids), 10)` and, nested
inside, `expressions_start in range(0, len(expressions), 4)`, one call
with the slices `ids[ids_start : ids_start + 10]` and
`expressions[expressions_start : expressions_start + 4]`. -/
def evalmetricsCalls (ids exprs : List String) : List (List String × List String) :=
  (List.range' 0 ((ids.length + 9) / 10) 10).flatMap (fun s =>
    (List.range' 0 ((exprs.length + 3) / 4) 4).map (fun u =>
      ((ids.drop s).take 10, (exprs.drop u).take 4)))

/-- The batching loop body of `evalmetrics(get_all = True)` (src lines
77-86): for each batched call, run the transport, unwrap `result`,
normalize, explode, and concatenate column-wise onto the accumulator;
any raised error aborts the loop. -/
def emLoop (transport : List String × List String → HttpResponse) :
    List (List String × List String) → Table → Except PyErr Table
  | [], df => .ok df
  | c :: cs, df =>
    match read_data_json (transport c) with
    | .error e => .error e
    | .ok body =>
      match lookupKey body "result" with
      | .error e => .error e
      | .ok res => emLoop transport cs (concatCols df (explodeTable (jsonNormalizeOne res)))

/-- Model of `evalmetrics(get_all = True)` (src lines 62-103): run the
batching loop over all (id-batch, expression-batch) pairs, filter to the
dates/data/missing columns when `remove_meta`, then unify date columns. -/
def evalmetricsRun (transport : List String × List String → HttpResponse)
    (ids exprs : List String) (remove_meta : Bool) : Except PyErr Table :=
  match emLoop transport (evalmetricsCalls ids exprs) emptyTable with
  | .error e => .error e
  | .ok df => dateUnify (if remove_meta then filterRegexEM df else df)

/-- The pagination loop of `fetch(get_all = True)` (src lines 39-51),
driven by the list of successive HTTP responses the server returns: each
iteration issues one request with `limit = 2000` and the current offset,
appends the normalized `objs` rows, and continues (with `offset += 2000`)
exactly when the response's `hasMore` is truthy.  The returned value
records the (limit, offset) pairs of the requests issued together with
the accumulated table or the raised error; `none` means the supplied
response list ran out while the loop still wanted more pages. -/
def fetchAllLoop : List HttpResponse → Nat → Table →
    Option (List (Nat × Nat) × Except PyErr Table)
  | [], _, _ => none
  | r :: rs, offset, df =>
    match read_data_json r with
    | .error e => some ([(2000, offset)], .error e)
    | .ok body =>
      match lookupKey body "objs" with
      | .error e => some ([(2000, offset)], .error e)
      | .ok ov =>
        match asArr ov with
        | .error e => some ([(2000, offset)], .error e)
        | .ok objs =>
          let df2 := rowAppend df (jsonNormalizeList objs)
          match lookupKey body "hasMore" with
          | .error e => some ([(2000, offset)], .error e)
          | .ok hm =>
            if pyTruthy hm then
              match fetchAllLoop rs (offset + 2000) df2 with
              | none => none
              | some (reqs, out) => some ((2000, offset) :: reqs, out)
            else
              some ([(2000, offset)], .ok df2)

/-- Model of `fetch(get_all = True)` (src lines 28-60): the pagination
loop from offset 0 on the empty frame, followed by the metadata strip
when `remove_meta`. -/
def fetch_get_all (script : List HttpResponse) (remove_meta : Bool) :
    Option (List (Nat × Nat) × Except PyErr Table) :=
  match fetchAllLoop script 0 emptyTable with
  | none => none
  | some (reqs, .error e) => some (reqs, .error e)
  | some (reqs, .ok df) => some (reqs, .ok (if remove_meta then removeMetaFetch df else df))

/-- One fuel step of Python's `str.replace`: at each position, if the
pattern starts here, emit the replacement and continue after the matched
region, otherwise keep the character; occurrences are found left to right
and are non-overlapping, and text produced by a replacement is not
rescanned. -/
def strReplaceGo (pat rep : List Char) : Nat → List Char → List Char
  | 0, s => s
  | _ + 1, [] => []
  | fuel + 1, c :: cs =>
    if pat.isPrefixOf (c :: cs) then
      rep ++ strReplaceGo pat rep fuel ((c :: cs).drop pat.length)
    else
      c :: strReplaceGo pat rep fuel cs

/-- Python's `s.replace(pat, rep)` (single left-to-right pass over `s`). -/
def pyStrReplace (s pat rep : String) : String :=
  String.mk (strReplaceGo pat.toList rep.toList s.toList.length s.toList)

/-- The column-name simplification of `getprojectionhistory` (src line
127): `lambda x: x.replace(".value", "")`. -/
def colSimplify (x : String) : String := pyStrReplace x ".value" ""

/-- Model of `df.rename(columns = lambda x: x.replace(".value", ""))`. -/
def renameValueCols (t : Table) : Table :=
  ⟨t.nrows, t.cols.map (fun c => (colSimplify c.1, c.2))⟩

/-- Model of `getprojectionhistory` (src lines 105-129), applied to the
response of its single call: normalize the whole body as one record,
explode, filter to dates/data/missing/expr columns when `remove_meta`,
unify date columns and simplify ".value" column names. -/
def getprojectionhistoryRun (resp : HttpResponse) (remove_meta : Bool) : Except PyErr Table :=
  match read_data_json resp with
  | .error e => .error e
  | .ok body =>
    let df := explodeTable (jsonNormalizeOne (.obj body))
    let df1 := if remove_meta then filterRegexPH df else df
    match dateUnify df1 with
    | .error e => .error e
    | .ok df2 => .ok (renameValueCols df2)

/-- Partition of a list into consecutive chunks of at most `k` elements
(the reference partition against which the batching loop is checked). -/
def chunksOf {α : Type} (k : Nat) : List α → List (List α)
  | [] => []
  | a :: l => (a :: l.take (k - 1)) :: chunksOf k (l.drop (k - 1))
termination_by l => l.length
decreasing_by simp [List.length_drop]; omega

/-- The body of a successful `fetch` page response holding the given
records and continuation flag. -/
def pageBody (objs : List JVal) (hm : Bool) : HttpResponse :=
  ⟨200, [("objs", JVal.arr objs), ("hasMore", JVal.bool hm)]⟩

/-- The table accumulated by the pagination loop over the given pages:
normalized records of every page, appended row-wise onto the empty frame. -/
def pagesTable (pages : List (List JVal)) : Table :=
  pages.foldl (fun d o => rowAppend d (jsonNormalizeList o)) emptyTable

/-- Concrete id list of length 25 (example input from the spec). -/
def idsW : List String :=
  ["i01","i02","i03","i04","i05","i06","i07","i08","i09","i10",
   "i11","i12","i13","i14","i15","i16","i17","i18","i19","i20",
   "i21","i22","i23","i24","i25"]

/-- Concrete expression list of length 5 (example input from the spec). -/
def exprsW : List String := ["e1","e2","e3","e4","e5"]

/- ------------------------------------------------------------------ -/
/- Helper lemmas                                                       -/
/- ------------------------------------------------------------------ -/

theorem ceil_div_cons (j m : Nat) : (m + 1 + j) / (j + 1) = (m - j + j) / (j + 1) + 1 := by
  rcases Nat.le_total j m with h | h
  · rw [Nat.sub_add_cancel h, show m + 1 + j = m + (j + 1) by omega,
      Nat.add_div_right _ (Nat.succ_pos j)]
  · rw [Nat.sub_eq_zero_of_le h, Nat.zero_add, Nat.div_eq_of_lt (Nat.lt_succ_self j)]
    exact Nat.div_eq_of_lt_le (by omega) (by omega)

theorem chunksOf_flatten {α : Type} (k : Nat) (l : List α) : (chunksOf k l).flatten = l := by
  induction l using chunksOf.induct k with
  | case1 => simp [chunksOf]
  | case2 a l ih => simp [chunksOf, ih]

theorem chunksOf_le {α : Type} (k : Nat) (hk : 1 ≤ k) (l : List α) :
    ∀ b ∈ chunksOf k l, b.length ≤ k := by
  induction l using chunksOf.induct k with
  | case1 => simp [chunksOf]
  | case2 a l ih =>
    intro b hb
    simp only [chunksOf, List.mem_cons] at hb
    rcases hb with rfl | hb
    · simp only [List.length_cons, List.length_take]
      omega
    · exact ih b hb

theorem chunksOf_length {α : Type} (j : Nat) (l : List α) :
    (chunksOf (j + 1) l).length = (l.length + j) / (j + 1) := by
  induction l using chunksOf.induct (j + 1) with
  | case1 => simp [chunksOf, Nat.div_eq_of_lt (Nat.lt_succ_self j)]
  | case2 a l ih =>
    simp only [chunksOf, Nat.add_sub_cancel, List.length_cons, List.length_drop] at ih ⊢
    rw [ih, ceil_div_cons]

theorem slices_eq_chunksOf {α : Type} (j : Nat) (l : List α) :
    (List.range' 0 ((l.length + j) / (j + 1)) (j + 1)).map (fun s => (l.drop s).take (j + 1)) =
      chunksOf (j + 1) l := by
  induction l using chunksOf.induct (j + 1) with
  | case1 => simp [chunksOf, Nat.div_eq_of_lt (Nat.lt_succ_self j)]
  | case2 a l ih =>
    have hq : ((a :: l).length + j) / (j + 1) = ((l.drop j).length + j) / (j + 1) + 1 := by
      simp only [List.length_cons, List.length_drop]
      rw [ceil_div_cons]
    rw [hq, List.range'_succ, List.map_cons]
    have hshift : List.range' (0 + (j + 1)) (((l.drop j).length + j) / (j + 1)) (j + 1) =
        (List.range' 0 (((l.drop j).length + j) / (j + 1)) (j + 1)).map (fun s => (j + 1) + s) := by
      rw [List.map_add_range']
      congr 1
      omega
    simp only [Nat.add_sub_cancel] at ih
    rw [hshift, List.map_map]
    have hpt : ∀ s : Nat,
        ((fun s => ((a :: l).drop s).take (j + 1)) ∘ fun s => (j + 1) + s) s =
          (fun s => (((l.drop j).drop s)).take (j + 1)) s := by
      intro s
      simp only [Function.comp_apply]
      rw [List.drop_drop, show (j + 1) + s = (j + s) + 1 by omega, List.drop_succ_cons,
        Nat.add_comm j s]
    rw [List.map_congr_left (fun s _ => hpt s), ih]
    simp [chunksOf]

theorem chunksOf10_slices {α : Type} (l : List α) :
    (List.range' 0 ((l.length + 9) / 10) 10).map (fun s => (l.drop s).take 10) =
      chunksOf 10 l := by
  simpa using slices_eq_chunksOf 9 l

theorem chunksOf4_slices {α : Type} (l : List α) :
    (List.range' 0 ((l.length + 3) / 4) 4).map (fun s => (l.drop s).take 4) =
      chunksOf 4 l := by
  simpa using slices_eq_chunksOf 3 l

theorem flatMap_map_pair {α β γ δ : Type} (A : List α) (B : List β) (f : α → γ) (g : β → δ) :
    (A.map f).flatMap (fun x => (B.map g).map (fun y => (x, y))) =
      A.flatMap (fun a => B.map (fun b => (f a, g b))) := by
  induction A with
  | nil => rfl
  | cons a A ih =>
    simp only [List.map_cons, List.flatMap_cons]
    rw [ih]
    simp [List.map_map, Function.comp_def]

theorem evalmetricsCalls_eq (ids exprs : List String) :
    evalmetricsCalls ids exprs =
      (chunksOf 10 ids).flatMap (fun ib => (chunksOf 4 exprs).map (fun eb => (ib, eb))) := by
  rw [← chunksOf10_slices ids, ← chunksOf4_slices exprs, flatMap_map_pair]
  rfl

theorem evalmetricsCalls_length (ids exprs : List String) :
    (evalmetricsCalls ids exprs).length =
      ((ids.length + 9) / 10) * ((exprs.length + 3) / 4) := by
  unfold evalmetricsCalls
  rw [List.length_flatMap]
  simp [List.map_map, Function.comp_def, List.length_map, List.length_range',
    List.map_const', List.sum_replicate]

theorem rowAppend_nrows (t1 t2 : Table) : (rowAppend t1 t2).nrows = t1.nrows + t2.nrows := rfl

theorem jsonNormalizeList_nrows (objs : List JVal) :
    (jsonNormalizeList objs).nrows = objs.length := rfl

theorem removeMetaFetch_nrows (t : Table) : (removeMetaFetch t).nrows = t.nrows := rfl

theorem pagesFoldl_nrows (pages : List (List JVal)) :
    ∀ df : Table,
    (pages.foldl (fun d o => rowAppend d (jsonNormalizeList o)) df).nrows =
      df.nrows + (pages.map List.length).sum := by
  induction pages with
  | nil => intro df; simp
  | cons p ps ih =>
    intro df
    simp only [List.foldl_cons, List.map_cons, List.sum_cons]
    rw [ih, rowAppend_nrows, jsonNormalizeList_nrows]
    omega

theorem range_shift_2000 (offset n : Nat) :
    (List.range (n + 1 + 1)).map (fun i => ((2000 : Nat), offset + 2000 * i)) =
      (2000, offset) :: (List.range (n + 1)).map (fun i => (2000, (offset + 2000) + 2000 * i)) := by
  rw [List.range_succ_eq_map, List.map_cons, List.map_map]
  simp only [Nat.mul_zero, Nat.add_zero]
  congr 1
  apply List.map_congr_left
  intro i _
  simp only [Function.comp_apply, Prod.mk.injEq, true_and]
  omega

theorem fetchAllLoop_pages (last : List JVal) (rest : List HttpResponse) :
    ∀ (pre : List (List JVal)) (offset : Nat) (df : Table),
    fetchAllLoop ((pre.map (fun o => pageBody o true)) ++ pageBody last false :: rest) offset df =
      some ((List.range (pre.length + 1)).map (fun i => (2000, offset + 2000 * i)),
        .ok ((pre ++ [last]).foldl (fun d o => rowAppend d (jsonNormalizeList o)) df)) := by
  intro pre
  induction pre with
  | nil =>
    intro offset df
    simp only [List.map_nil, List.nil_append, List.length_nil]
    rw [show fetchAllLoop (pageBody last false :: rest) offset df =
        some ([(2000, offset)], Except.ok (rowAppend df (jsonNormalizeList last))) from rfl]
    simp [List.range_succ]
  | cons p pre ih =>
    intro offset df
    simp only [List.map_cons, List.cons_append, List.length_cons]
    have step : fetchAllLoop
        (pageBody p true :: ((pre.map (fun o => pageBody o true)) ++ pageBody last false :: rest))
        offset df =
        match fetchAllLoop ((pre.map (fun o => pageBody o true)) ++ pageBody last false :: rest)
            (offset + 2000) (rowAppend df (jsonNormalizeList p)) with
        | none => none
        | some (reqs, out) => some ((2000, offset) :: reqs, out) := rfl
    rw [step, ih (offset + 2000) (rowAppend df (jsonNormalizeList p)), range_shift_2000]
    simp only [List.cons_append, List.foldl_cons]

theorem fetchAllLoop_error (r : HttpResponse) (e : PyErr) (rest : List HttpResponse)
    (hr : read_data_json r = .error e) :
    ∀ (pre : List (List JVal)) (offset : Nat) (df : Table),
    fetchAllLoop ((pre.map (fun o => pageBody o true)) ++ r :: rest) offset df =
      some ((List.range (pre.length + 1)).map (fun i => (2000, offset + 2000 * i)), .error e) := by
  intro pre
  induction pre with
  | nil =>
    intro offset df
    simp only [List.map_nil, List.nil_append, List.length_nil]
    simp only [fetchAllLoop, hr]
    simp [List.range_succ]
  | cons p pre ih =>
    intro offset df
    simp only [List.map_cons, List.cons_append, List.length_cons]
    have step : fetchAllLoop
        (pageBody p true :: ((pre.map (fun o => pageBody o true)) ++ r :: rest)) offset df =
        match fetchAllLoop ((pre.map (fun o => pageBody o true)) ++ r :: rest)
            (offset + 2000) (rowAppend df (jsonNormalizeList p)) with
        | none => none
        | some (reqs, out) => some ((2000, offset) :: reqs, out) := rfl
    rw [step, ih (offset + 2000) (rowAppend df (jsonNormalizeList p)), range_shift_2000]

theorem emLoop_error (transport : List String × List String → HttpResponse)
    (c : List String × List String) (cs2 : List (List String × List String)) (e : PyErr)
    (hc : read_data_json (transport c) = .error e) :
    ∀ cs1 : List (List String × List String),
    (∀ c' ∈ cs1, ∃ b r, read_data_json (transport c') = .ok b ∧ lookupKey b "result" = .ok r) →
    ∀ df : Table, emLoop transport (cs1 ++ c :: cs2) df = .error e := by
  intro cs1
  induction cs1 with
  | nil =>
    intro _ df
    simp only [List.nil_append, emLoop, hc]
  | cons a cs1 ih =>
    intro hall df
    obtain ⟨b, r, hb, hr⟩ := hall a (List.mem_cons_self a cs1)
    simp only [List.cons_append, emLoop, hb, hr]
    exact ih (fun c' hc' => hall c' (List.mem_cons_of_mem a hc')) _

theorem dateUnify_no_dates (t : Table)
    (h : (colNames t).filter (fun c => hasSub c "dates") = []) :
    dateUnify t = .error .indexError := by
  unfold dateUnify
  rw [h]

theorem map_eq_self_of_eq {α : Type} (l : List α) (f : α → α) (h : ∀ c ∈ l, f c = c) :
    l.map f = l := by
  induction l with
  | nil => rfl
  | cons a l ih =>
    simp only [List.map_cons]
    rw [h a (List.mem_cons_self a l), ih (fun c hc => h c (List.mem_cons_of_mem a hc))]

theorem padCol_eq (n : Nat) (col : List JVal) (h : col.length = n) : padCol n col = col := by
  unfold padCol
  rw [h, Nat.sub_self]
  simp

theorem foldr_max_all_eq (n : Nat) : ∀ l : List Nat, l ≠ [] → (∀ x ∈ l, x = n) →
    l.foldr Nat.max 0 = n := by
  intro l
  induction l with
  | nil => intro h; exact absurd rfl h
  | cons a l ih =>
    intro _ hall
    have ha : a = n := hall a (List.mem_cons_self a l)
    cases l with
    | nil => simp [ha]
    | cons b l' =>
      rw [List.foldr_cons, ih (by simp) (fun x hx => hall x (List.mem_cons_of_mem a hx)), ha]
      exact Nat.max_self n

theorem find?_name_eq {cols : List (String × List JVal)} (hnd : (cols.map Prod.fst).Nodup)
    (d : String) (cells : List JVal) (h : (d, cells) ∈ cols) :
    cols.find? (fun c => c.1 == d) = some (d, cells) := by
  induction cols with
  | nil => cases h
  | cons c cs ih =>
    rw [List.map_cons, List.nodup_cons] at hnd
    rcases List.mem_cons.1 h with rfl | hmem
    · exact List.find?_cons_of_pos _ (by simp)
    · have hne : c.1 ≠ d := by
        intro he
        exact hnd.1 (he ▸ (List.mem_map_of_mem Prod.fst hmem))
      rw [List.find?_cons_of_neg _ (by simp [hne])]
      exact ih hnd.2 hmem

theorem filterMap_find_filter {cols : List (String × List JVal)} (p : String → Bool)
    (hnd : (cols.map Prod.fst).Nodup) :
    ((cols.map Prod.fst).filter p).filterMap (fun k => cols.find? (fun c => c.1 == k)) =
      cols.filter (fun c => p c.1) := by
  induction cols with
  | nil => rfl
  | cons c cs ih =>
    rw [List.map_cons, List.nodup_cons] at hnd
    have hrest : ∀ k ∈ (cs.map Prod.fst).filter p,
        (fun k => (c :: cs).find? (fun x => x.1 == k)) k =
          (fun k => cs.find? (fun x => x.1 == k)) k := by
      intro k hk
      have hkmem : k ∈ cs.map Prod.fst := (List.mem_filter.1 hk).1
      have hne : c.1 ≠ k := fun he => hnd.1 (he ▸ hkmem)
      exact List.find?_cons_of_neg _ (by simp [hne])
    simp only [List.map_cons]
    cases hpc : p c.1 with
    | true =>
      have hg : (fun k => List.find? (fun x => x.1 == k) (c :: cs)) c.1 = some c :=
        List.find?_cons_of_pos _ (by simp)
      simp only [List.filter_cons, hpc, if_true]
      rw [@List.filterMap_cons_some _ _ (fun k => List.find? (fun x => x.1 == k) (c :: cs))
          c.1 (List.filter p (List.map Prod.fst cs)) c hg,
        List.filterMap_congr hrest, ih hnd.2]
    | false =>
      simp only [List.filter_cons, hpc, Bool.false_eq_true, if_false]
      rw [List.filterMap_congr hrest, ih hnd.2]

/- ------------------------------------------------------------------ -/
/- Claim theorems                                                      -/
/- ------------------------------------------------------------------ -/

/-- C1: for every call to `evalmetrics` with `get_all = True` over N ids and
M expressions (N, M > 0), the ids are partitioned into consecutive
order-preserving batches of at most 10 and the expressions into consecutive
order-preserving batches of at most 4, and exactly ceil(N/10) * ceil(M/4)
transport calls are issued, iterating expression-batches nested inside
id-batches. -/
theorem evalmetrics_batch_partitioning (ids exprs : List String)
    (_hN : 0 < ids.length) (_hM : 0 < exprs.length) :
    evalmetricsCalls ids exprs =
      (chunksOf 10 ids).flatMap (fun ib => (chunksOf 4 exprs).map (fun eb => (ib, eb)))
    ∧ (chunksOf 10 ids).flatten = ids
    ∧ (∀ b ∈ chunksOf 10 ids, b.length ≤ 10)
    ∧ (chunksOf 4 exprs).flatten = exprs
    ∧ (∀ b ∈ chunksOf 4 exprs, b.length ≤ 4)
    ∧ (evalmetricsCalls ids exprs).length =
        ((ids.length + 9) / 10) * ((exprs.length + 3) / 4) :=
  ⟨evalmetricsCalls_eq ids exprs, chunksOf_flatten 10 ids, chunksOf_le 10 (by omega) ids,
   chunksOf_flatten 4 exprs, chunksOf_le 4 (by omega) exprs, evalmetricsCalls_length ids exprs⟩

/-- Witness for C1 at N = 25, M = 5: the hypotheses hold and the loop issues
ceil(25/10) * ceil(5/4) = 6 calls. -/
theorem evalmetrics_batch_partitioning_witness :
    0 < idsW.length ∧ 0 < exprsW.length ∧
    (evalmetricsCalls idsW exprsW).length =
      ((idsW.length + 9) / 10) * ((exprsW.length + 3) / 4) ∧
    (evalmetricsCalls idsW exprsW).length = 6 :=
  ⟨by decide, by decide,
   (evalmetrics_batch_partitioning idsW exprsW (by decide) (by decide)).2.2.2.2.2,
   by decide⟩

/-- C2: for every sequence of page responses, `fetch(get_all = True)` starts
at offset 0, requests pages with limit 2000 incrementing the offset by 2000
each iteration, stops exactly on the first response whose `hasMore` flag is
false (later responses are never consumed), and returns a table whose row
count equals the sum of the lengths of the `objs` lists across all pages
received. -/
theorem fetch_pagination (pre : List (List JVal)) (last : List JVal)
    (rest : List HttpResponse) (rm : Bool) :
    fetch_get_all ((pre.map (fun o => pageBody o true)) ++ pageBody last false :: rest) rm =
      some ((List.range (pre.length + 1)).map (fun i => (2000, 2000 * i)),
        .ok (if rm then removeMetaFetch (pagesTable (pre ++ [last]))
             else pagesTable (pre ++ [last])))
    ∧ (if rm then removeMetaFetch (pagesTable (pre ++ [last]))
        else pagesTable (pre ++ [last])).nrows = ((pre ++ [last]).map List.length).sum := by
  constructor
  · unfold fetch_get_all
    rw [fetchAllLoop_pages last rest pre 0 emptyTable]
    simp only [Nat.zero_add]
    rfl
  · have hn : (pagesTable (pre ++ [last])).nrows = ((pre ++ [last]).map List.length).sum := by
      unfold pagesTable
      rw [pagesFoldl_nrows]
      simp [emptyTable]
    cases rm with
    | false => simpa using hn
    | true => simpa [removeMetaFetch_nrows] using hn

/-- C5: for both batched operations - `fetch(get_all = True)` and
`evalmetrics(get_all = True)` - if any transport call fails, even after
earlier pages or batches in the same call succeeded, the whole operation
fails with that error and no table (in particular no partial table built
from the already-merged batches) is returned. -/
theorem error_propagation_no_partial_result :
    (∀ (pre : List (List JVal)) (r : HttpResponse) (e : PyErr) (rest : List HttpResponse)
        (rm : Bool), read_data_json r = .error e →
      fetch_get_all ((pre.map (fun o => pageBody o true)) ++ r :: rest) rm =
        some ((List.range (pre.length + 1)).map (fun i => (2000, 2000 * i)), .error e))
    ∧ (∀ (transport : List String × List String → HttpResponse) (ids exprs : List String)
        (rm : Bool) (cs1 cs2 : List (List String × List String))
        (c : List String × List String) (e : PyErr),
      evalmetricsCalls ids exprs = cs1 ++ c :: cs2 →
      (∀ c' ∈ cs1, ∃ b r, read_data_json (transport c') = .ok b ∧ lookupKey b "result" = .ok r) →
      read_data_json (transport c) = .error e →
      evalmetricsRun transport ids exprs rm = .error e) := by
  constructor
  · intro pre r e rest rm hr
    unfold fetch_get_all
    rw [fetchAllLoop_error r e rest hr pre 0 emptyTable]
    simp only [Nat.zero_add]
  · intro transport ids exprs rm cs1 cs2 c e hsplit hpre hc
    unfold evalmetricsRun
    rw [hsplit, emLoop_error transport c cs2 e hc cs1 hpre emptyTable]

/-- Witness for C5: a 400 response with body message "bad spec" aborts the
pagination loop after one successful page, and aborts the metrics batching
loop, surfacing `Exception("bad spec")` with no table returned. -/
theorem error_propagation_no_partial_result_witness :
    fetch_get_all
        (([[JVal.obj [("id", JVal.str "a")]]].map (fun o => pageBody o true)) ++
          (⟨400, [("message", JVal.str "bad spec")]⟩ : HttpResponse) :: []) true =
      some ((List.range ([[JVal.obj [("id", JVal.str "a")]]].length + 1)).map
              (fun i => (2000, 2000 * i)),
            .error (.apiError (.str "bad spec")))
    ∧ evalmetricsRun (fun _ => (⟨400, [("message", JVal.str "bad spec")]⟩ : HttpResponse))
        ["i"] ["e"] true = .error (.apiError (.str "bad spec")) :=
  ⟨error_propagation_no_partial_result.1 [[JVal.obj [("id", JVal.str "a")]]]
      ⟨400, [("message", JVal.str "bad spec")]⟩ (.apiError (.str "bad spec")) [] true rfl,
   error_propagation_no_partial_result.2
      (fun _ => ⟨400, [("message", JVal.str "bad spec")]⟩) ["i"] ["e"] true [] []
      (["i"], ["e"]) (.apiError (.str "bad spec")) rfl
      (fun c' hc' => absurd hc' (List.not_mem_nil c')) rfl⟩

/-- C4 counterexample: on a 400 response whose body has no `message` field,
`read_data_json` fails with `KeyError("message")` from the subscription
`response.json()["message"]`, not with an error carrying the message
"unknown error" - refuting the claim's fallback behavior. -/
theorem api_error_missing_message_counterexample :
    read_data_json ⟨400, [("status", JVal.num 400)]⟩ = .error (.keyError "message")
    ∧ read_data_json ⟨400, [("status", JVal.num 400)]⟩ ≠
        .error (.apiError (.str "unknown error")) := by
  refine ⟨rfl, ?_⟩
  intro h
  rw [show read_data_json ⟨400, [("status", JVal.num 400)]⟩ =
      .error (.keyError "message") from rfl] at h
  simp at h

/-- C4 (amended): for every transport call whose response has a non-200
status, if the body has a `message` field the call fails with the error
carrying that message verbatim; if the body lacks a `message` field the
call fails with `KeyError("message")` (the failing subscription), not with
an error carrying "unknown error". -/
theorem api_error_message (resp : HttpResponse) (h200 : resp.statusCode ≠ 200) :
    (∀ v : JVal, lookupKey resp.body "message" = .ok v →
      read_data_json resp = .error (.apiError v))
    ∧ (lookupKey resp.body "message" = .error (.keyError "message") →
      read_data_json resp = .error (.keyError "message")) := by
  constructor
  · intro v hv
    unfold read_data_json
    rw [if_pos h200, hv]
  · intro hv
    unfold read_data_json
    rw [if_pos h200, hv]

/-- Witness for C4 (amended): a 400 response with message "bad spec" raises
that message verbatim, and a 400 response without a `message` field raises
`KeyError("message")`. -/
theorem api_error_message_witness :
    (⟨400, [("message", JVal.str "bad spec")]⟩ : HttpResponse).statusCode ≠ 200
    ∧ read_data_json ⟨400, [("message", JVal.str "bad spec")]⟩ =
        .error (.apiError (.str "bad spec"))
    ∧ read_data_json ⟨400, [("status", JVal.num 400)]⟩ = .error (.keyError "message") :=
  ⟨by decide,
   (api_error_message ⟨400, [("message", JVal.str "bad spec")]⟩ (by decide)).1
      (.str "bad spec") rfl,
   (api_error_message ⟨400, [("status", JVal.num 400)]⟩ (by decide)).2 rfl⟩

/-- C8: for every table returned by `fetch` with `remove_meta = True`, every
column whose name contains the substring "meta" or the substring "version"
(case-sensitive substring match, not exact field match) is dropped and every
other column is kept; in particular columns id, meta.source, version.tag,
value yield exactly id and value. -/
theorem fetch_strip_metadata :
    (∀ t : Table, (removeMetaFetch t).cols =
        t.cols.filter (fun c => !(hasSub c.1 "meta" || hasSub c.1 "version")))
    ∧ colNames (removeMetaFetch ⟨1, [("id", [JVal.str "x"]), ("meta.source", [JVal.str "s"]),
        ("version.tag", [JVal.num 1]), ("value", [JVal.num 2])]⟩) = ["id", "value"] := by
  refine ⟨?_, by decide⟩
  intro t
  unfold removeMetaFetch
  apply List.filter_congr
  intro c hc
  have hmem : c.1 ∈ colNames t := List.mem_map_of_mem Prod.fst hc
  unfold dropListFetch
  by_cases hp : (hasSub c.1 "meta" || hasSub c.1 "version") = true
  · simp [hp, List.mem_filter, hmem]
  · simp only [Bool.not_eq_true] at hp
    simp [hp, List.mem_filter]

/-- C9 counterexample: the projection-history column-simplification pass is
a single left-to-right pass of Python `str.replace(".value", "")`, not a
removal repeated until no occurrence remains: the column name
"a.va.valuelue" becomes "a.value", which still contains ".value". -/
theorem value_strip_counterexample :
    colNames (renameValueCols ⟨1, [("a.va.valuelue", [JVal.num 1])]⟩) = ["a.value"]
    ∧ hasSub "a.value" ".value" = true := by
  exact ⟨rfl, by decide⟩

/-- C9 (amended): the column-simplification pass applies Python's
`str.replace(".value", "")` to every column name, removing all left-to-right
non-overlapping occurrences of ".value" in a single pass (text produced by a
removal is not rescanned); in particular "projection.value.value" becomes
"projection". -/
theorem value_strip_single_pass :
    (∀ t : Table, colNames (renameValueCols t) = (colNames t).map colSimplify)
    ∧ colSimplify "projection.value.value" = "projection"
    ∧ colSimplify "a.va.valuelue" = "a.value" := by
  refine ⟨?_, by decide, by decide⟩
  intro t
  simp [renameValueCols, colNames, List.map_map, Function.comp_def]

/-- C10: for every invocation of `evalmetrics` or `getprojectionhistory`
whose assembled table contains no column whose name contains "dates", the
operation raises an error (the `IndexError` from `date_cols[0]`) instead of
returning a table, and this holds even when `remove_meta` is false, because
the first-dates-column selection, rename and date conversion run
unconditionally. -/
theorem missing_dates_column_raises :
    (∀ t : Table, (colNames t).filter (fun c => hasSub c "dates") = [] →
      dateUnify t = .error .indexError)
    ∧ (∀ (transport : List String × List String → HttpResponse) (ids exprs : List String)
        (rm : Bool) (df : Table),
      emLoop transport (evalmetricsCalls ids exprs) emptyTable = .ok df →
      (colNames (if rm then filterRegexEM df else df)).filter (fun c => hasSub c "dates") = [] →
      evalmetricsRun transport ids exprs rm = .error .indexError)
    ∧ (∀ (resp : HttpResponse) (body : List (String × JVal)) (rm : Bool),
      read_data_json resp = .ok body →
      (colNames (if rm then filterRegexPH (explodeTable (jsonNormalizeOne (.obj body)))
          else explodeTable (jsonNormalizeOne (.obj body)))).filter
          (fun c => hasSub c "dates") = [] →
      getprojectionhistoryRun resp rm = .error .indexError) := by
  refine ⟨dateUnify_no_dates, ?_, ?_⟩
  · intro transport ids exprs rm df hloop hnod
    unfold evalmetricsRun
    rw [hloop]
    exact dateUnify_no_dates _ hnod
  · intro resp body rm hresp hnod
    unfold getprojectionhistoryRun
    rw [hresp]
    simp only
    rw [dateUnify_no_dates _ hnod]

/-- Witness for C10 with `remove_meta = false`: a metrics response whose
result has only a data column, and a projection-history body without date
fields, both make the operation raise `IndexError`. -/
theorem missing_dates_column_raises_witness :
    dateUnify ⟨1, [("x", [JVal.num 1])]⟩ = .error .indexError
    ∧ evalmetricsRun (fun _ => ⟨200, [("result", JVal.obj [("k.data", JVal.arr [JVal.str "v"])])]⟩)
        ["i"] ["e"] false = .error .indexError
    ∧ getprojectionhistoryRun ⟨200, [("p.data", JVal.arr [JVal.num 1])]⟩ false =
        .error .indexError :=
  ⟨missing_dates_column_raises.1 ⟨1, [("x", [JVal.num 1])]⟩ (by decide),
   missing_dates_column_raises.2.1
      (fun _ => ⟨200, [("result", JVal.obj [("k.data", JVal.arr [JVal.str "v"])])]⟩)
      ["i"] ["e"] false ⟨1, [("k.data", [JVal.str "v"])]⟩ rfl (by decide),
   missing_dates_column_raises.2.2 ⟨200, [("p.data", JVal.arr [JVal.num 1])]⟩
      [("p.data", JVal.arr [JVal.num 1])] false rfl (by decide)⟩

/-- C6: for every pair of batch results of equal row count merged by
`evalmetrics(get_all = True)` via `pd.concat(axis = 1)`, the column-wise
concatenation is position-aligned: the merged table has the same row count,
each batch contributes its own columns side by side, and row i of the merged
table is the concatenation of row i of each batch (rows are neither
reordered nor duplicated). -/
theorem concat_position_aligned (t1 t2 : Table) (n : Nat)
    (h1 : t1.nrows = n) (h2 : t2.nrows = n)
    (hc1 : ∀ c ∈ t1.cols, c.2.length = n) (hc2 : ∀ c ∈ t2.cols, c.2.length = n) :
    (concatCols t1 t2).nrows = n
    ∧ (concatCols t1 t2).cols = t1.cols ++ t2.cols
    ∧ ∀ i : Nat, getRow (concatCols t1 t2) i = getRow t1 i ++ getRow t2 i := by
  have hmax : max t1.nrows t2.nrows = n := by rw [h1, h2]; exact Nat.max_self n
  have hpad : ∀ (t : Table), (∀ c ∈ t.cols, c.2.length = n) →
      t.cols.map (fun c => (c.1, padCol (max t1.nrows t2.nrows) c.2)) = t.cols := by
    intro t hc
    apply map_eq_self_of_eq
    intro c hcm
    rw [hmax, padCol_eq n c.2 (hc c hcm)]
  have hcols : (concatCols t1 t2).cols = t1.cols ++ t2.cols := by
    unfold concatCols
    simp only
    rw [hpad t1 hc1, hpad t2 hc2]
  refine ⟨hmax, hcols, ?_⟩
  intro i
  unfold getRow
  rw [hcols, List.map_append]

/-- Witness for C6 on two one-column batches of two rows each. -/
theorem concat_position_aligned_witness :
    (concatCols ⟨2, [("a", [JVal.num 1, JVal.num 2])]⟩
        ⟨2, [("b", [JVal.str "x", JVal.str "y"])]⟩).nrows = 2
    ∧ (concatCols ⟨2, [("a", [JVal.num 1, JVal.num 2])]⟩
        ⟨2, [("b", [JVal.str "x", JVal.str "y"])]⟩).cols =
      (⟨2, [("a", [JVal.num 1, JVal.num 2])]⟩ : Table).cols ++
        (⟨2, [("b", [JVal.str "x", JVal.str "y"])]⟩ : Table).cols
    ∧ getRow (concatCols ⟨2, [("a", [JVal.num 1, JVal.num 2])]⟩
        ⟨2, [("b", [JVal.str "x", JVal.str "y"])]⟩) 0 =
      getRow ⟨2, [("a", [JVal.num 1, JVal.num 2])]⟩ 0 ++
        getRow ⟨2, [("b", [JVal.str "x", JVal.str "y"])]⟩ 0
    ∧ getRow (concatCols ⟨2, [("a", [JVal.num 1, JVal.num 2])]⟩
        ⟨2, [("b", [JVal.str "x", JVal.str "y"])]⟩) 1 =
      getRow ⟨2, [("a", [JVal.num 1, JVal.num 2])]⟩ 1 ++
        getRow ⟨2, [("b", [JVal.str "x", JVal.str "y"])]⟩ 1 := by
  have hm1 : ∀ c ∈ (⟨2, [("a", [JVal.num 1, JVal.num 2])]⟩ : Table).cols, c.2.length = 2 := by
    intro c hc
    rw [List.mem_singleton] at hc
    subst hc
    rfl
  have hm2 : ∀ c ∈ (⟨2, [("b", [JVal.str "x", JVal.str "y"])]⟩ : Table).cols,
      c.2.length = 2 := by
    intro c hc
    rw [List.mem_singleton] at hc
    subst hc
    rfl
  have h := concat_position_aligned ⟨2, [("a", [JVal.num 1, JVal.num 2])]⟩
    ⟨2, [("b", [JVal.str "x", JVal.str "y"])]⟩ 2 rfl rfl hm1 hm2
  exact ⟨h.1, h.2.1, h.2.2 0, h.2.2 1⟩

/-- C7 (for sequences of length n ≥ 1): a flattened one-row result in which
every cell holds a sequence of the same length n explodes into exactly n
rows, where row k holds the k-th element of each column's sequence, with
positional correspondence and row order preserved. -/
theorem explode_sequences (names : List String) (seqs : List (List JVal)) (n : Nat)
    (hn : 1 ≤ n) (hlen : names.length = seqs.length) (hne : names ≠ [])
    (hall : ∀ s ∈ seqs, s.length = n) :
    explodeTable ⟨1, names.zip (seqs.map (fun s => [JVal.arr s]))⟩ = ⟨n, names.zip seqs⟩
    ∧ ∀ k, k < n →
      getRow (explodeTable ⟨1, names.zip (seqs.map (fun s => [JVal.arr s]))⟩) k =
        (names.zip seqs).map (fun c => (c.1, c.2.getD k JVal.null)) := by
  have hcells : (names.zip (seqs.map (fun s => [JVal.arr s]))).map
      (fun c => (c.1, explodeCol c.2)) = names.zip seqs := by
    rw [List.zip_map_right, List.map_map]
    apply map_eq_self_of_eq
    intro c hc
    have hcs : c.2 ∈ seqs := (List.of_mem_zip (by rwa [← Prod.mk.eta (p := c)] at hc)).2
    have hlen2 : c.2.length = n := hall c.2 hcs
    have hne2 : c.2.isEmpty = false := by
      rcases hc2 : c.2 with _ | _
      · rw [hc2] at hlen2
        simp at hlen2
        omega
      · rfl
    simp [Function.comp_def, Prod.map, explodeCol, explodeCell, hne2]
  have hzip_len : (names.zip seqs).length = names.length := by
    rw [List.length_zip, hlen, Nat.min_self]
  have hzip_ne : names.zip seqs ≠ [] := by
    intro hz
    rw [hz] at hzip_len
    exact hne (List.eq_nil_of_length_eq_zero hzip_len.symm)
  have hexp : explodeTable ⟨1, names.zip (seqs.map (fun s => [JVal.arr s]))⟩ =
      ⟨n, names.zip seqs⟩ := by
    unfold explodeTable
    simp only [hcells]
    have hie : (names.zip seqs).isEmpty = false := by
      rcases hz : names.zip seqs with _ | _
      · exact absurd hz hzip_ne
      · rfl
    simp only [hie, Bool.false_eq_true, if_false, Table.mk.injEq]
    refine ⟨?_, trivial⟩
    apply foldr_max_all_eq
    · simpa using hzip_ne
    · intro x hx
      obtain ⟨c, hc, rfl⟩ := List.mem_map.1 hx
      exact hall c.2 ((List.of_mem_zip (by rwa [← Prod.mk.eta (p := c)] at hc)).2)
  refine ⟨hexp, ?_⟩
  intro k _
  rw [hexp]
  rfl

/-- Witness for C7 at n = 3: three-element data and dates sequences expand
into exactly 3 aligned rows. -/
theorem explode_sequences_witness :
    explodeTable ⟨1, (["data", "dates"].zip
        ([[JVal.num 1, JVal.num 2, JVal.num 3],
          [JVal.str "d1", JVal.str "d2", JVal.str "d3"]].map (fun s => [JVal.arr s])))⟩ =
      ⟨3, ["data", "dates"].zip
        [[JVal.num 1, JVal.num 2, JVal.num 3], [JVal.str "d1", JVal.str "d2", JVal.str "d3"]]⟩ :=
  (explode_sequences ["data", "dates"]
    [[JVal.num 1, JVal.num 2, JVal.num 3], [JVal.str "d1", JVal.str "d2", JVal.str "d3"]] 3
    (by omega) rfl (by simp)
    (by
      intro s hs
      simp only [List.mem_cons, List.not_mem_nil, or_false] at hs
      rcases hs with rfl | rfl
      · rfl
      · rfl)).1

/-- C7 counterexample: with empty sequences (n = 0) in every cell, the
explosion yields one null row, not zero rows - refuting the claim at n = 0. -/
theorem explode_sequences_counterexample :
    (∀ c ∈ (⟨1, [("data", [JVal.arr []]), ("dates", [JVal.arr []])]⟩ : Table).cols,
        ∃ xs : List JVal, c.2 = [JVal.arr xs] ∧ xs.length = 0)
    ∧ (explodeTable ⟨1, [("data", [JVal.arr []]), ("dates", [JVal.arr []])]⟩).nrows = 1
    ∧ (explodeTable ⟨1, [("data", [JVal.arr []]), ("dates", [JVal.arr []])]⟩).nrows ≠ 0 := by
  refine ⟨?_, rfl, by decide⟩
  intro c hc
  simp only [List.mem_cons, List.not_mem_nil, or_false] at hc
  rcases hc with rfl | rfl
  · exact ⟨[], rfl, rfl⟩
  · exact ⟨[], rfl, rfl⟩

/-- C3: for every table assembled by `evalmetrics` (and
`getprojectionhistory`) that contains at least one column whose name
contains "dates" (and whose column names are distinct, as produced by the
assembly), the date-unification pass returns a table with exactly one dates
column: the first-occurring column containing "dates" is kept and renamed
to `dates` (its cells converted to timestamps), every other column
containing "dates" is dropped, and all columns not containing "dates" are
retained unchanged. -/
theorem date_unification (t : Table) (d0 : String) (ds : List String)
    (hnd : (colNames t).Nodup)
    (hdc : (colNames t).filter (fun c => hasSub c "dates") = d0 :: ds) :
    ∃ cells : List JVal, (d0, cells) ∈ t.cols
    ∧ dateUnify t = .ok ⟨t.nrows,
        ("dates", cells.map toDatetimeCell) :: t.cols.filter (fun c => !hasSub c.1 "dates")⟩
    ∧ (colNames ⟨t.nrows, ("dates", cells.map toDatetimeCell) ::
          t.cols.filter (fun c => !hasSub c.1 "dates")⟩).filter
        (fun c => hasSub c "dates") = ["dates"] := by
  have hd0f : d0 ∈ (colNames t).filter (fun c => hasSub c "dates") := by
    rw [hdc]
    exact List.mem_cons_self d0 ds
  have hd0mem : d0 ∈ colNames t := (List.mem_filter.1 hd0f).1
  have hd0sub : hasSub d0 "dates" = true := (List.mem_filter.1 hd0f).2
  obtain ⟨c0, hc0mem, hc0fst⟩ := List.mem_map.1 hd0mem
  have hc0 : (d0, c0.2) ∈ t.cols := by
    rw [← hc0fst, Prod.mk.eta]
    exact hc0mem
  have hds : hasSub "dates" "dates" = true := by decide
  have hmemF : ∀ c ∈ t.cols.filter (fun c => !hasSub c.1 "dates"),
      hasSub c.1 "dates" = false := by
    intro c hc
    have h2 := (List.mem_filter.1 hc).2
    simpa using h2
  have hnd' : (t.cols.map Prod.fst).Nodup := hnd
  have hdc' : (t.cols.map Prod.fst).filter (fun c => hasSub c "dates") = d0 :: ds := hdc
  have hfi : filterItems t ((d0 :: ds).take 1 ++
        (t.cols.map Prod.fst).filter (fun c => !hasSub c "dates")) =
      ⟨t.nrows, (d0, c0.2) :: t.cols.filter (fun c => !hasSub c.1 "dates")⟩ := by
    unfold filterItems
    rw [show (d0 :: ds).take 1 ++ (t.cols.map Prod.fst).filter (fun c => !hasSub c "dates") =
        d0 :: (t.cols.map Prod.fst).filter (fun c => !hasSub c "dates") by simp]
    have hg : (fun k => List.find? (fun c => c.1 == k) t.cols) d0 = some (d0, c0.2) :=
      find?_name_eq hnd' d0 c0.2 hc0
    rw [@List.filterMap_cons_some _ _ (fun k => List.find? (fun c => c.1 == k) t.cols) d0
        ((t.cols.map Prod.fst).filter (fun c => !hasSub c "dates")) (d0, c0.2) hg,
      filterMap_find_filter (fun c => !hasSub c "dates") hnd']
  have hrn : renameCol ⟨t.nrows, (d0, c0.2) :: t.cols.filter (fun c => !hasSub c.1 "dates")⟩
        d0 "dates" =
      ⟨t.nrows, ("dates", c0.2) :: t.cols.filter (fun c => !hasSub c.1 "dates")⟩ := by
    unfold renameCol
    simp only [List.map_cons]
    have htail : (t.cols.filter (fun c => !hasSub c.1 "dates")).map
        (fun c => if c.1 == d0 then ("dates", c.2) else c) =
        t.cols.filter (fun c => !hasSub c.1 "dates") := by
      apply map_eq_self_of_eq
      intro c hc
      have hf := hmemF c hc
      have hne : c.1 ≠ d0 := by
        intro he
        have hcontra : hasSub d0 "dates" = false := he ▸ hf
        rw [hd0sub] at hcontra
        exact Bool.noConfusion hcontra
      simp [beq_eq_false_iff_ne.2 hne]
    rw [htail]
    simp
  have hmc : mapColCells
        ⟨t.nrows, ("dates", c0.2) :: t.cols.filter (fun c => !hasSub c.1 "dates")⟩
        "dates" toDatetimeCell =
      ⟨t.nrows, ("dates", c0.2.map toDatetimeCell) ::
        t.cols.filter (fun c => !hasSub c.1 "dates")⟩ := by
    unfold mapColCells
    simp only [List.map_cons]
    have htail : (t.cols.filter (fun c => !hasSub c.1 "dates")).map
        (fun c => if c.1 == "dates" then (c.1, c.2.map toDatetimeCell) else c) =
        t.cols.filter (fun c => !hasSub c.1 "dates") := by
      apply map_eq_self_of_eq
      intro c hc
      have hf := hmemF c hc
      have hne : c.1 ≠ "dates" := by
        intro he
        rw [he, hds] at hf
        exact Bool.noConfusion hf
      simp [beq_eq_false_iff_ne.2 hne]
    rw [htail]
    simp
  refine ⟨c0.2, hc0, ?_, ?_⟩
  · unfold dateUnify
    simp only [colNames] at hdc' ⊢
    rw [hdc']
    show Except.ok (mapColCells (renameCol (filterItems t ((d0 :: ds).take 1 ++
        (t.cols.map Prod.fst).filter (fun c => !hasSub c "dates"))) d0 "dates")
        "dates" toDatetimeCell) = _
    rw [hfi, hrn, hmc]
  · simp only [colNames, List.map_cons, List.filter_cons, hds, if_true]
    rw [List.filter_eq_nil_iff.2]
    intro a ha
    obtain ⟨c, hc, rfl⟩ := List.mem_map.1 ha
    simp [hmemF c hc]

/-- Witness for C3: a table with columns expr1.dates, expr2.dates,
expr1.data yields exactly one `dates` column (from expr1.dates, converted
to timestamps) plus expr1.data. -/
theorem date_unification_witness :
    dateUnify ⟨1, [("expr1.dates", [JVal.str "2020-01-01"]),
        ("expr2.dates", [JVal.str "2020-01-02"]), ("expr1.data", [JVal.num 1])]⟩ =
      .ok ⟨1, [("dates", [JVal.datetime "2020-01-01"]), ("expr1.data", [JVal.num 1])]⟩ := by
  obtain ⟨cells, hmem, hok, _⟩ := date_unification
    ⟨1, [("expr1.dates", [JVal.str "2020-01-01"]), ("expr2.dates", [JVal.str "2020-01-02"]),
      ("expr1.data", [JVal.num 1])]⟩
    "expr1.dates" ["expr2.dates"] (by decide) (by decide)
  simp only [List.mem_cons, List.not_mem_nil, or_false, Prod.mk.injEq] at hmem
  rcases hmem with ⟨_, rfl⟩ | ⟨h2, _⟩ | ⟨h3, _⟩
  · rw [hok]
    rfl
  · exact absurd h2 (by decide)
  · exact absurd h3 (by decide)

end DataLake
